import Mathlib

/-!
Verification development for the `ScopedPerformance` adapter
(`src/scoped-performance.ts`): a namespace-isolation layer over a shared
timing-event registry (the platform `Performance` facility).

Names are modelled as lists of characters (`Str`), so that the JavaScript
string operations used by the source (`startsWith`, first-occurrence
`replace`, concatenation) can be embedded exactly and reasoned about by
induction.  The shared registry itself is not part of the repository; its
operations are modelled from the spec's description of the external
collaborator contract (spec section 6).
-/

/-- Names are sequences of characters. -/
abbrev Str := List Char

/-- The separator literal `::` (field `glue` of `ScopedPerformance`). -/
def glue : Str := [':', ':']

/-- JavaScript `String.prototype.replace` with a string pattern:
replaces only the first occurrence of `pat` by `repl` (and inserts `repl`
at the front when `pat` is empty, as JS does). -/
def replaceFirst (pat repl : Str) : Str → Str
  | [] => if pat.isPrefixOf ([] : Str) then repl ++ ([] : Str).drop pat.length else []
  | c :: rest =>
    if pat.isPrefixOf (c :: rest) then repl ++ (c :: rest).drop pat.length
    else c :: replaceFirst pat repl rest

/-- Prototype identity of an entry object (`PerformanceMark.prototype` vs
`PerformanceMeasure.prototype` vs any other entry prototype). -/
inductive Proto
  | mark
  | measure
  | generic
  deriving DecidableEq

/-- A timing entry as held by the registry: the JSON fields
(name, entryType, startTime, duration, detail) plus the prototype that
determines its kind-specific identity. -/
structure PerfEntry where
  name : Str
  entryType : String
  startTime : Int
  duration : Int
  detail : String
  proto : Proto
  deriving DecidableEq

/-- A listener registration as held by the registry: event type, listener
reference (modelled as an opaque numeric identity) and the flattened
capture flag. -/
structure ListenerReg where
  type : String
  listener : Nat
  capture : Bool
  deriving DecidableEq

/-- Modelled from the spec: the shared timing registry state — a list of
named timestamped entries plus the currently subscribed listeners
(spec section 6). -/
structure Registry where
  entries : List PerfEntry
  listeners : List ListenerReg
  deriving DecidableEq

/-- Modelled from the spec: registry `mark` creates a named mark entry. -/
def Registry.mark (name : Str) (startTime : Int) (detail : String) (r : Registry) : Registry :=
  { r with entries := r.entries ++ [⟨name, "mark", startTime, 0, detail, Proto.mark⟩] }

/-- Modelled from the spec: registry `getEntries` lists every entry. -/
def Registry.getEntries (r : Registry) : List PerfEntry :=
  r.entries

/-- Modelled from the spec: registry `getEntriesByType` lists the entries of
one kind. -/
def Registry.getEntriesByType (t : String) (r : Registry) : List PerfEntry :=
  r.entries.filter (fun e => e.entryType == t)

/-- Whether an entry matches an optional entry-type filter. -/
def typeMatches (t : Option String) (e : PerfEntry) : Bool :=
  match t with
  | some ty => e.entryType == ty
  | none => true

/-- Modelled from the spec: registry `getEntriesByName` lists the entries
with exactly the given name, optionally restricted to one kind. -/
def Registry.getEntriesByName (n : Str) (t : Option String) (r : Registry) : List PerfEntry :=
  r.entries.filter (fun e => e.name == n && typeMatches t e)

/-- Modelled from the spec: registry deletion of entries of kind `ty`,
either all of them or exactly those with the given name. -/
def Registry.clearType (ty : String) (n : Option Str) (r : Registry) : Registry :=
  { r with
    entries := r.entries.filter (fun e =>
      !(e.entryType == ty && (match n with | some nm => e.name == nm | none => true))) }

/-- Modelled from the spec: registry `clearMarks`. -/
def Registry.clearMarks (n : Option Str) (r : Registry) : Registry :=
  Registry.clearType "mark" n r

/-- Modelled from the spec: registry `clearMeasures`. -/
def Registry.clearMeasures (n : Option Str) (r : Registry) : Registry :=
  Registry.clearType "measure" n r

/-- Modelled from the spec: registry subscription.  A `null` listener is
ignored; an identical (type, listener, capture) registration is
de-duplicated, per the registry's own contract. -/
def Registry.addEventListener (t : String) (l : Option Nat) (capture : Bool) (r : Registry) :
    Registry :=
  match l with
  | none => r
  | some lv =>
    if (⟨t, lv, capture⟩ : ListenerReg) ∈ r.listeners then r
    else { r with listeners := r.listeners ++ [⟨t, lv, capture⟩] }

/-- Modelled from the spec: registry unsubscription, removing the matching
(type, listener, capture) registration.  A `null` listener is ignored. -/
def Registry.removeEventListener (t : String) (l : Option Nat) (capture : Bool) (r : Registry) :
    Registry :=
  match l with
  | none => r
  | some lv =>
    { r with listeners := r.listeners.filter (fun reg => !(decide (reg = ⟨t, lv, capture⟩))) }

/-- A start reference for `measure`: either a logical mark name (a string)
or a `PerformanceMeasureOptions` object. -/
structure MeasureOpts where
  start : Option Int
  stop : Option Int
  detail : String
  deriving DecidableEq

/-- The second argument of `measure`: a string mark name or an options object. -/
inductive StartRef
  | name (n : Str)
  | options (o : MeasureOpts)
  deriving DecidableEq

/-- Modelled from the spec: the last recorded mark time for a name. -/
def Registry.findMarkTime (r : Registry) (n : Str) : Option Int :=
  ((r.entries.filter (fun e => e.entryType == "mark" && e.name == n)).getLast?).map
    (fun e => e.startTime)

/-- Modelled from the spec: registry `measure` creates a named measure entry
whose duration spans from the resolved start reference to the resolved end
reference (or the current time when no end is given). -/
def Registry.measure (r : Registry) (now : Int) (name : Str) (startRef : Option StartRef)
    (endRef : Option Str) : Registry × PerfEntry :=
  let startT : Int :=
    match startRef with
    | some (StartRef.name n) => (r.findMarkTime n).getD 0
    | some (StartRef.options o) => o.start.getD 0
    | none => 0
  let endT : Int :=
    match endRef with
    | some n => (r.findMarkTime n).getD now
    | none => now
  let e : PerfEntry := ⟨name, "measure", startT, endT - startT, "", Proto.measure⟩
  ({ r with entries := r.entries ++ [e] }, e)

/-- Caller-side `EventListenerOptions`: a boolean capture flag or
an options object whose `capture` member may be absent. -/
inductive ELOptions
  | bool (b : Bool)
  | obj (capture : Option Bool)
  deriving DecidableEq

/-- The normalized options shape stored in the adapter's bookkeeping:
`capture` may still be absent when an object without `capture` was passed
through unchanged. -/
structure NormOpts where
  capture : Option Bool
  deriving DecidableEq

/-- Source `normalizeEventListenerOptions`: booleans and
`undefined` become `\x7b capture: Boolean(options) \x7d`; option objects are
returned as-is. -/
def normalizeEventListenerOptions : Option ELOptions → NormOpts
  | none => ⟨some false⟩
  | some (ELOptions.bool b) => ⟨some b⟩
  | some (ELOptions.obj c) => ⟨c⟩

/-- How the registry flattens an options argument to a capture boolean
(JS truthiness of the `capture` member, absent meaning `false`). -/
def jsCaptureOf : Option ELOptions → Bool
  | none => false
  | some (ELOptions.bool b) => b
  | some (ELOptions.obj c) => c.getD false

/-- One recorded `addEventListener` call in the adapter's bookkeeping list
(`_addEventListenerCalls`): type, non-null listener, normalized options. -/
structure StoredCall where
  type : String
  listener : Nat
  options : NormOpts
  deriving DecidableEq

/-- The adapter: its immutable scope identifier `randomId` and its listener
bookkeeping list. -/
structure ScopedPerformance where
  randomId : Str
  _addEventListenerCalls : List StoredCall := []
  deriving DecidableEq

/-- Source `_prefixName`: the scoped form `randomId ++ glue ++ name`. -/
def ScopedPerformance._prefixName (a : ScopedPerformance) (name : Str) : Str :=
  a.randomId ++ glue ++ name

/-- Source `_unprefixName`: removes the first occurrence of `randomId ++ glue`
(JS first-occurrence `replace` with the empty replacement). -/
def ScopedPerformance._unprefixName (a : ScopedPerformance) (name : Str) : Str :=
  replaceFirst (a._prefixName []) [] name

/-- Source `_isScopedName`: whether a registry name starts with this adapter's
scope prefix. -/
def ScopedPerformance._isScopedName (a : ScopedPerformance) (name : Str) : Bool :=
  (a._prefixName []).isPrefixOf name

/-- Source `_prototypeMap`: the prototype associated to an entry type, defined only
for `mark` and `measure` (indexing with any other type yields `undefined`). -/
def _prototypeMap (ty : String) : Option Proto :=
  if ty = "mark" then some Proto.mark
  else if ty = "measure" then some Proto.measure
  else none

/-- A `.map` whose element transformation may throw: the first failing
element aborts the whole call, as a thrown `TypeError` aborts a JS
`Array.prototype.map`. -/
def throwingMap (f : PerfEntry → Option PerfEntry) : List PerfEntry → Option (List PerfEntry)
  | [] => some []
  | e :: es =>
    match f e with
    | none => none
    | some e' => (throwingMap f es).map (fun es' => e' :: es')

/-- Source `_filterMap`: keep the entries carrying this adapter's scope prefix and
rebuild each as a copy of its JSON fields with the name unprefixed and the
prototype set from `_prototypeMap`.  `Object.setPrototypeOf` throws when the
prototype lookup yields `undefined`, which the `Option` models as `none`. -/
def ScopedPerformance._filterMap (a : ScopedPerformance) (entries : List PerfEntry) :
    Option (List PerfEntry) :=
  throwingMap (fun e =>
      (_prototypeMap e.entryType).map (fun p =>
        { e with name := a._unprefixName e.name, proto := p }))
    (entries.filter (fun e => a._isScopedName e.name))

/-- Adapter `mark`: forwards to the registry with the name scoped. -/
def ScopedPerformance.mark (a : ScopedPerformance) (markName : Str) (startTime : Int)
    (detail : String) (r : Registry) : Registry :=
  Registry.mark (a._prefixName markName) startTime detail r

/-- The three arguments the adapter's `measure` forwards to the registry:
the name is always scoped; a string start reference is scoped while an
options object passes through; the end reference is scoped when truthy
(a JS empty string is falsy and becomes `undefined`). -/
def ScopedPerformance.measureArgs (a : ScopedPerformance) (measureName : Str)
    (startMarkOrOptions : Option StartRef) (endMark : Option Str) :
    Str × Option StartRef × Option Str :=
  (a._prefixName measureName,
   match startMarkOrOptions with
   | some (StartRef.name s) => some (StartRef.name (a._prefixName s))
   | x => x,
   match endMark with
   | some (c :: cs) => some (a._prefixName (c :: cs))
   | _ => none)

/-- Adapter `measure`: forwards the rewritten arguments to the registry and
returns the registry's result unmodified. -/
def ScopedPerformance.measure (a : ScopedPerformance) (r : Registry) (now : Int)
    (measureName : Str) (startMarkOrOptions : Option StartRef) (endMark : Option Str) :
    Registry × PerfEntry :=
  Registry.measure r now (a.measureArgs measureName startMarkOrOptions endMark).1
    (a.measureArgs measureName startMarkOrOptions endMark).2.1
    (a.measureArgs measureName startMarkOrOptions endMark).2.2

/-- Adapter `clearMarks`: with a truthy (non-empty) name, forward a single
scoped deletion; otherwise enumerate the registry's marks and delete each
scoped one individually by its full scoped name. -/
def ScopedPerformance.clearMarks (a : ScopedPerformance) (markName : Option Str)
    (r : Registry) : Registry :=
  match markName with
  | some (c :: cs) => Registry.clearMarks (some (a._prefixName (c :: cs))) r
  | _ =>
    ((Registry.getEntriesByType "mark" r).map (fun e => e.name)).foldl
      (fun acc nm => if a._isScopedName nm then Registry.clearMarks (some nm) acc else acc) r

/-- Adapter `clearMeasures`: same shape as `clearMarks`, over measures. -/
def ScopedPerformance.clearMeasures (a : ScopedPerformance) (measureName : Option Str)
    (r : Registry) : Registry :=
  match measureName with
  | some (c :: cs) => Registry.clearMeasures (some (a._prefixName (c :: cs))) r
  | _ =>
    ((Registry.getEntriesByType "measure" r).map (fun e => e.name)).foldl
      (fun acc nm => if a._isScopedName nm then Registry.clearMeasures (some nm) acc else acc) r

/-- Adapter `getEntries`: filter-and-transform the registry's full list. -/
def ScopedPerformance.getEntries (a : ScopedPerformance) (r : Registry) :
    Option (List PerfEntry) :=
  a._filterMap (Registry.getEntries r)

/-- Adapter `getEntriesByType`. -/
def ScopedPerformance.getEntriesByType (a : ScopedPerformance) (t : String) (r : Registry) :
    Option (List PerfEntry) :=
  a._filterMap (Registry.getEntriesByType t r)

/-- Adapter `getEntriesByName`: queries the registry with the scoped name
and applies the same filter-and-transform as the other getters. -/
def ScopedPerformance.getEntriesByName (a : ScopedPerformance) (n : Str) (t : Option String)
    (r : Registry) : Option (List PerfEntry) :=
  a._filterMap (Registry.getEntriesByName (a._prefixName n) t r)

/-- First index in a list satisfying a boolean predicate, as the source's
`for` loop over `_addEventListenerCalls` computes it. -/
def findFirstIdx (p : StoredCall → Bool) : List StoredCall → Option Nat
  | [] => none
  | c :: cs => if p c then some 0 else (findFirstIdx p cs).map (fun i => i + 1)

/-- Source `_findListenerIndex`: index of the first recorded call with the same
type, the same listener reference and a strictly-equal normalized capture
value. -/
def ScopedPerformance._findListenerIndex (a : ScopedPerformance) (t : String)
    (l : Option Nat) (o : Option ELOptions) : Option Nat :=
  findFirstIdx (fun c =>
      c.type == t && (some c.listener == l) &&
        (c.options.capture == (normalizeEventListenerOptions o).capture))
    a._addEventListenerCalls

/-- Adapter `addEventListener`: record the call (normalized) when the
listener is non-null and no identical registration is already recorded;
always forward the original arguments to the registry. -/
def ScopedPerformance.addEventListener (a : ScopedPerformance) (t : String) (l : Option Nat)
    (o : Option ELOptions) (r : Registry) : ScopedPerformance × Registry :=
  let a' :=
    match l with
    | some lv =>
      if (a._findListenerIndex t l o).isNone then
        { a with
          _addEventListenerCalls :=
            a._addEventListenerCalls ++ [⟨t, lv, normalizeEventListenerOptions o⟩] }
      else a
    | none => a
  (a', Registry.addEventListener t l (jsCaptureOf o) r)

/-- Adapter `removeEventListener`: splice the first matching recorded call
out of the bookkeeping, and forward the original arguments to the
registry. -/
def ScopedPerformance.removeEventListener (a : ScopedPerformance) (t : String) (l : Option Nat)
    (o : Option ELOptions) (r : Registry) : ScopedPerformance × Registry :=
  let a' :=
    match a._findListenerIndex t l o with
    | some i => { a with _addEventListenerCalls := a._addEventListenerCalls.eraseIdx i }
    | none => a
  (a', Registry.removeEventListener t l (jsCaptureOf o) r)

/-- The `Symbol.dispose` teardown: clear this scope's marks, then this
scope's measures, then forward one registry unsubscription per recorded
call (the recorded normalized options object is what gets forwarded).  The
bookkeeping list itself is not emptied by the source. -/
def ScopedPerformance.dispose (a : ScopedPerformance) (r : Registry) : Registry :=
  let r1 := a.clearMarks none r
  let r2 := a.clearMeasures none r1
  a._addEventListenerCalls.foldl
    (fun acc c =>
      Registry.removeEventListener c.type (some c.listener) (c.options.capture.getD false) acc)
    r2

/-- Adapter-mediated listener operations (for reachability statements). -/
inductive Op
  | add (t : String) (l : Option Nat) (o : Option ELOptions)
  | remove (t : String) (l : Option Nat) (o : Option ELOptions)
  | dispose

/-- One adapter-mediated step on the joint (adapter, registry) state. -/
def stepOp : ScopedPerformance × Registry → Op → ScopedPerformance × Registry
  | (a, r), Op.add t l o => a.addEventListener t l o r
  | (a, r), Op.remove t l o => a.removeEventListener t l o r
  | (a, r), Op.dispose => (a, a.dispose r)

/-- Run a sequence of adapter-mediated operations. -/
def runOps (a : ScopedPerformance) (r : Registry) (ops : List Op) :
    ScopedPerformance × Registry :=
  ops.foldl stepOp (a, r)

/-- The bookkeeping-subset property: every recorded call corresponds (with
its capture flattened the way the registry flattens it) to a registration
actually present on the registry. -/
def bookkeepingSubset (a : ScopedPerformance) (r : Registry) : Bool :=
  a._addEventListenerCalls.all (fun c =>
    decide ((⟨c.type, c.listener, c.options.capture.getD false⟩ : ListenerReg) ∈ r.listeners))

/-- Listener operations restricted to non-null listeners and
boolean-or-absent options (the shapes whose normalization is canonical). -/
def simpleOp : Op → Bool
  | Op.add _ l o =>
    l.isSome && (match o with | none => true | some (ELOptions.bool _) => true | _ => false)
  | Op.remove _ l o =>
    l.isSome && (match o with | none => true | some (ELOptions.bool _) => true | _ => false)
  | Op.dispose => false

/-! ## Helper lemmas about names and prefixes -/

lemma isPrefixOf_iff_exists : ∀ (l1 l2 : Str), l1.isPrefixOf l2 = true ↔ ∃ t, l1 ++ t = l2 := by
  intro l1
  induction l1 with
  | nil => intro l2; simp
  | cons a as ih =>
    intro l2
    cases l2 with
    | nil => simp
    | cons b bs =>
      rw [List.isPrefixOf_cons₂]
      constructor
      · intro h
        obtain ⟨hab, h2⟩ := Bool.and_eq_true_iff.mp h
        obtain ⟨t, ht⟩ := (ih bs).mp h2
        exact ⟨t, by simp [beq_iff_eq.mp hab, ht]⟩
      · rintro ⟨t, ht⟩
        simp only [List.cons_append, List.cons.injEq] at ht
        apply Bool.and_eq_true_iff.mpr
        exact ⟨beq_iff_eq.mpr ht.1, (ih bs).mpr ⟨t, ht.2⟩⟩

lemma isPrefixOf_append_self (l t : Str) : l.isPrefixOf (l ++ t) = true :=
  (isPrefixOf_iff_exists l (l ++ t)).mpr ⟨t, rfl⟩

lemma replaceFirst_of_isPrefixOf (pat repl s : Str) (h : pat.isPrefixOf s = true) :
    replaceFirst pat repl s = repl ++ s.drop pat.length := by
  cases s with
  | nil => simp [replaceFirst, h]
  | cons c cs => simp [replaceFirst, h]

lemma unprefixName_prefixName (a : ScopedPerformance) (n : Str) :
    a._unprefixName (a._prefixName n) = n := by
  have h1 : a._prefixName n = a._prefixName [] ++ n := by
    simp [ScopedPerformance._prefixName]
  rw [ScopedPerformance._unprefixName, h1,
    replaceFirst_of_isPrefixOf _ _ _ (isPrefixOf_append_self _ _)]
  simp [List.drop_left]

lemma append_colon_inj : ∀ (s1 s2 l1 l2 : Str), ':' ∉ s1 → ':' ∉ s2 →
    s1 ++ ':' :: l1 = s2 ++ ':' :: l2 → s1 = s2 := by
  intro s1
  induction s1 with
  | nil =>
    intro s2 l1 l2 _ h2 heq
    cases s2 with
    | nil => rfl
    | cons c cs =>
      simp only [List.nil_append, List.cons_append, List.cons.injEq] at heq
      exact absurd (by rw [← heq.1]; exact List.mem_cons_self _ _) h2
  | cons a as ih =>
    intro s2 l1 l2 h1 h2 heq
    cases s2 with
    | nil =>
      simp only [List.nil_append, List.cons_append, List.cons.injEq] at heq
      exact absurd (by rw [heq.1]; exact List.mem_cons_self _ _) h1
    | cons b bs =>
      simp only [List.cons_append, List.cons.injEq] at heq
      have h1' : ':' ∉ as := fun hm => h1 (List.mem_cons_of_mem _ hm)
      have h2' : ':' ∉ bs := fun hm => h2 (List.mem_cons_of_mem _ hm)
      rw [heq.1, ih bs l1 l2 h1' h2' heq.2]

lemma isScopedName_cross (a1 a2 : ScopedPerformance) (n : Str)
    (h1 : ':' ∉ a1.randomId) (h2 : ':' ∉ a2.randomId) (hne : a1.randomId ≠ a2.randomId) :
    a2._isScopedName (a1._prefixName n) = false := by
  rw [Bool.eq_false_iff]
  intro hcon
  obtain ⟨t, ht⟩ := (isPrefixOf_iff_exists _ _).mp hcon
  simp only [ScopedPerformance._prefixName, glue, List.append_assoc, List.append_nil,
    List.cons_append, List.nil_append] at ht
  exact hne (append_colon_inj a2.randomId a1.randomId (':' :: t) (':' :: n) h2 h1 ht).symm

lemma isScopedName_prefixName_self (a : ScopedPerformance) (n : Str) :
    a._isScopedName (a._prefixName n) = true := by
  rw [ScopedPerformance._isScopedName]
  have h : a._prefixName n = a._prefixName [] ++ n := by
    simp [ScopedPerformance._prefixName]
  rw [h]
  exact isPrefixOf_append_self _ _

/-! ## Helper lemmas about the filtered-and-transformed read-back -/

lemma throwingMap_eq_some_map (f : PerfEntry → Option PerfEntry) (g : PerfEntry → PerfEntry) :
    ∀ l : List PerfEntry, (∀ x ∈ l, f x = some (g x)) →
      throwingMap f l = some (l.map g) := by
  intro l
  induction l with
  | nil => intro _; rfl
  | cons e es ih =>
    intro h
    rw [throwingMap, h e (List.mem_cons_self e es),
      ih (fun x hx => h x (List.mem_cons_of_mem _ hx))]
    rfl

lemma throwingMap_isSome_iff (f : PerfEntry → Option PerfEntry) :
    ∀ l : List PerfEntry, (throwingMap f l).isSome = true ↔ ∀ x ∈ l, (f x).isSome = true := by
  intro l
  induction l with
  | nil => simp [throwingMap]
  | cons e es ih =>
    rw [throwingMap]
    cases hfe : f e with
    | none => simp [List.forall_mem_cons, hfe]
    | some e' => simp [List.forall_mem_cons, hfe, ih]

lemma filterMap_eq_some (a : ScopedPerformance) (l : List PerfEntry)
    (h : ∀ e ∈ l, a._isScopedName e.name = true →
      e.entryType = "mark" ∨ e.entryType = "measure") :
    a._filterMap l = some ((l.filter (fun e => a._isScopedName e.name)).map (fun e =>
      { e with name := a._unprefixName e.name,
               proto := if e.entryType = "mark" then Proto.mark else Proto.measure })) := by
  apply throwingMap_eq_some_map
  intro e he
  obtain ⟨hel, hsc⟩ := List.mem_filter.mp he
  rcases h e hel hsc with hm | hm <;> simp [_prototypeMap, hm]

lemma prototypeMap_isSome_iff (ty : String) :
    (_prototypeMap ty).isSome = true ↔ ty = "mark" ∨ ty = "measure" := by
  unfold _prototypeMap
  split_ifs with hy1 hy2
  · simp [hy1]
  · simp [hy2]
  · simp [hy1, hy2]

lemma filterMap_isSome_iff (a : ScopedPerformance) (l : List PerfEntry) :
    (a._filterMap l).isSome = true ↔
      ∀ e ∈ l, a._isScopedName e.name = true →
        (e.entryType = "mark" ∨ e.entryType = "measure") := by
  rw [ScopedPerformance._filterMap, throwingMap_isSome_iff]
  constructor
  · intro h e hel hsc
    have hx := h e (List.mem_filter.mpr ⟨hel, hsc⟩)
    rwa [Option.isSome_map', prototypeMap_isSome_iff] at hx
  · intro h e he
    obtain ⟨hel, hsc⟩ := List.mem_filter.mp he
    rw [Option.isSome_map']
    exact (prototypeMap_isSome_iff _).mpr (h e hel hsc)

lemma clearType_fold_entries (a : ScopedPerformance) (ty : String) :
    ∀ (ns : List Str) (r : Registry),
      ((ns.foldl (fun acc nm =>
          if a._isScopedName nm then Registry.clearType ty (some nm) acc else acc) r)).entries
        = r.entries.filter (fun e =>
            ns.all (fun nm => !(a._isScopedName nm && e.entryType == ty && e.name == nm))) := by
  intro ns
  induction ns with
  | nil => intro r; simp
  | cons nm ns ih =>
    intro r
    rw [List.foldl_cons, ih]
    have hstep : (if a._isScopedName nm then Registry.clearType ty (some nm) r else r).entries
        = r.entries.filter (fun e => !(a._isScopedName nm && e.entryType == ty && e.name == nm)) := by
      cases hsc : a._isScopedName nm with
      | false => simp [hsc]
      | true => simp [hsc, Registry.clearType]
    rw [hstep, List.filter_filter]
    apply List.filter_congr
    intro e _
    simp [List.all_cons, Bool.and_comm]

lemma clearType_fold_listeners (a : ScopedPerformance) (ty : String) :
    ∀ (ns : List Str) (r : Registry),
      ((ns.foldl (fun acc nm =>
          if a._isScopedName nm then Registry.clearType ty (some nm) acc else acc) r)).listeners
        = r.listeners := by
  intro ns
  induction ns with
  | nil => intro r; rfl
  | cons nm ns ih =>
    intro r
    rw [List.foldl_cons, ih]
    cases hsc : a._isScopedName nm with
    | false => simp [hsc]
    | true => simp [hsc, Registry.clearType]

lemma allNames_scoped_eq (a : ScopedPerformance) (ty : String) (r : Registry) (e : PerfEntry)
    (he : e ∈ r.entries) :
    ((Registry.getEntriesByType ty r).map (fun x => x.name)).all
        (fun nm => !(a._isScopedName nm && e.entryType == ty && e.name == nm))
      = !(e.entryType == ty && a._isScopedName e.name) := by
  cases hmark : (e.entryType == ty) with
  | false =>
    simp only [hmark, Bool.false_and, Bool.not_false]
    apply List.all_eq_true.mpr
    intro nm _
    simp [hmark]
  | true =>
    cases hsc : a._isScopedName e.name with
    | true =>
      simp only [hmark, hsc, Bool.true_and, Bool.and_true, Bool.not_true]
      rw [Bool.eq_false_iff]
      intro hall
      have hmem : e.name ∈ (Registry.getEntriesByType ty r).map (fun x => x.name) :=
        List.mem_map.mpr ⟨e, List.mem_filter.mpr ⟨he, hmark⟩, rfl⟩
      have hx := List.all_eq_true.mp hall e.name hmem
      simp [hsc, hmark] at hx
    | false =>
      simp only [hmark, hsc, Bool.true_and, Bool.and_false, Bool.not_false]
      apply List.all_eq_true.mpr
      intro nm _
      cases hnm : a._isScopedName nm with
      | false => simp [hnm]
      | true =>
        cases heq : (e.name == nm) with
        | false => simp [hnm, hmark, heq]
        | true =>
          exfalso
          have hn : nm = e.name := (beq_iff_eq.mp heq).symm
          rw [hn, hsc] at hnm
          exact Bool.false_ne_true hnm

lemma clearMarks_none_entries (a : ScopedPerformance) (r : Registry) :
    (a.clearMarks none r).entries
      = r.entries.filter (fun e => !(e.entryType == "mark" && a._isScopedName e.name)) := by
  show ((((Registry.getEntriesByType "mark" r).map (fun e => e.name)).foldl
      (fun acc nm => if a._isScopedName nm then Registry.clearMarks (some nm) acc else acc)
      r)).entries = _
  simp only [Registry.clearMarks]
  rw [clearType_fold_entries]
  exact List.filter_congr (fun e he => allNames_scoped_eq a "mark" r e he)

lemma clearMeasures_none_entries (a : ScopedPerformance) (r : Registry) :
    (a.clearMeasures none r).entries
      = r.entries.filter (fun e => !(e.entryType == "measure" && a._isScopedName e.name)) := by
  show ((((Registry.getEntriesByType "measure" r).map (fun e => e.name)).foldl
      (fun acc nm => if a._isScopedName nm then Registry.clearMeasures (some nm) acc else acc)
      r)).entries = _
  simp only [Registry.clearMeasures]
  rw [clearType_fold_entries]
  exact List.filter_congr (fun e he => allNames_scoped_eq a "measure" r e he)

lemma clearMarks_none_listeners (a : ScopedPerformance) (r : Registry) :
    (a.clearMarks none r).listeners = r.listeners := by
  show ((((Registry.getEntriesByType "mark" r).map (fun e => e.name)).foldl
      (fun acc nm => if a._isScopedName nm then Registry.clearMarks (some nm) acc else acc)
      r)).listeners = _
  simp only [Registry.clearMarks]
  rw [clearType_fold_listeners]

lemma clearMeasures_none_listeners (a : ScopedPerformance) (r : Registry) :
    (a.clearMeasures none r).listeners = r.listeners := by
  show ((((Registry.getEntriesByType "measure" r).map (fun e => e.name)).foldl
      (fun acc nm => if a._isScopedName nm then Registry.clearMeasures (some nm) acc else acc)
      r)).listeners = _
  simp only [Registry.clearMeasures]
  rw [clearType_fold_listeners]

lemma removeFold_listeners (calls : List StoredCall) :
    ∀ r : Registry,
      ((calls.foldl (fun acc c =>
          Registry.removeEventListener c.type (some c.listener)
            (c.options.capture.getD false) acc) r)).listeners
        = r.listeners.filter (fun reg => calls.all (fun c =>
            !(decide (reg = ⟨c.type, c.listener, c.options.capture.getD false⟩)))) := by
  induction calls with
  | nil => intro r; simp
  | cons c cs ih =>
    intro r
    rw [List.foldl_cons, ih]
    simp only [Registry.removeEventListener]
    rw [List.filter_filter]
    apply List.filter_congr
    intro reg _
    simp [List.all_cons, Bool.and_comm]

lemma removeFold_entries (calls : List StoredCall) :
    ∀ r : Registry,
      ((calls.foldl (fun acc c =>
          Registry.removeEventListener c.type (some c.listener)
            (c.options.capture.getD false) acc) r)).entries
        = r.entries := by
  induction calls with
  | nil => intro r; rfl
  | cons c cs ih =>
    intro r
    rw [List.foldl_cons, ih]
    simp [Registry.removeEventListener]

lemma dispose_entries (a : ScopedPerformance) (r : Registry) :
    (a.dispose r).entries = r.entries.filter (fun e =>
      !((e.entryType == "mark" || e.entryType == "measure") && a._isScopedName e.name)) := by
  rw [ScopedPerformance.dispose, removeFold_entries, clearMeasures_none_entries,
    clearMarks_none_entries, List.filter_filter]
  apply List.filter_congr
  intro e _
  cases hm : (e.entryType == "mark") <;> cases hme : (e.entryType == "measure") <;>
    cases hs : a._isScopedName e.name <;> simp [hm, hme, hs]

lemma dispose_listeners (a : ScopedPerformance) (r : Registry) :
    (a.dispose r).listeners = r.listeners.filter (fun reg =>
      a._addEventListenerCalls.all (fun c =>
        !(decide (reg = ⟨c.type, c.listener, c.options.capture.getD false⟩)))) := by
  rw [ScopedPerformance.dispose, removeFold_listeners, clearMeasures_none_listeners,
    clearMarks_none_listeners]

lemma findFirstIdx_none_all (p : StoredCall → Bool) :
    ∀ l : List StoredCall, findFirstIdx p l = none → ∀ x ∈ l, p x = false := by
  intro l
  induction l with
  | nil => intro _ x hx; simp at hx
  | cons c cs ih =>
    intro h x hx
    rw [findFirstIdx] at h
    cases hpc : p c with
    | true => rw [hpc] at h; simp at h
    | false =>
      rw [hpc] at h
      simp only [if_neg Bool.false_ne_true, Option.map_eq_none'] at h
      rcases List.mem_cons.mp hx with rfl | hx'
      · exact hpc
      · exact ih h x hx'

lemma findFirstIdx_some_mem (p : StoredCall → Bool) :
    ∀ (l : List StoredCall) (i : Nat), findFirstIdx p l = some i → ∃ x ∈ l, p x = true := by
  intro l
  induction l with
  | nil => intro i h; simp [findFirstIdx] at h
  | cons c cs ih =>
    intro i h
    rw [findFirstIdx] at h
    cases hpc : p c with
    | true => exact ⟨c, List.mem_cons_self c cs, hpc⟩
    | false =>
      rw [hpc] at h
      simp only [if_neg Bool.false_ne_true, Option.map_eq_some'] at h
      obtain ⟨j, hj, _⟩ := h
      obtain ⟨x, hx, hpx⟩ := ih j hj
      exact ⟨x, List.mem_cons_of_mem _ hx, hpx⟩

lemma findFirstIdx_eraseIdx_all (p : StoredCall → Bool) :
    ∀ (l : List StoredCall) (i : Nat), findFirstIdx p l = some i →
      l.Pairwise (fun x y => ¬(p x = true ∧ p y = true)) →
      ∀ x ∈ l.eraseIdx i, p x = false := by
  intro l
  induction l with
  | nil => intro i h; simp [findFirstIdx] at h
  | cons c cs ih =>
    intro i h hpw x hx
    rw [findFirstIdx] at h
    cases hpc : p c with
    | true =>
      have hi : i = 0 := by simp [hpc] at h; omega
      rw [hi, List.eraseIdx_cons_zero] at hx
      have hnc := (List.pairwise_cons.mp hpw).1 x hx
      cases hq : p x with
      | true => exact absurd ⟨hpc, hq⟩ hnc
      | false => rfl
    | false =>
      rw [hpc] at h
      simp only [if_neg Bool.false_ne_true, Option.map_eq_some'] at h
      obtain ⟨j, hj, hji⟩ := h
      rw [← hji, List.eraseIdx_cons_succ] at hx
      rcases List.mem_cons.mp hx with rfl | hx'
      · exact hpc
      · exact ih j hj (List.pairwise_cons.mp hpw).2 x hx'

lemma addEventListener_mem_mono (t : String) (l : Option Nat) (cap : Bool) (r : Registry)
    (x : ListenerReg) (hx : x ∈ r.listeners) :
    x ∈ (Registry.addEventListener t l cap r).listeners := by
  cases l with
  | none => exact hx
  | some lv =>
    by_cases hmem : (⟨t, lv, cap⟩ : ListenerReg) ∈ r.listeners
    · simp only [Registry.addEventListener, if_pos hmem]
      exact hx
    · simp only [Registry.addEventListener, if_neg hmem]
      exact List.mem_append_left _ hx

lemma addEventListener_self_mem (t : String) (lv : Nat) (cap : Bool) (r : Registry) :
    (⟨t, lv, cap⟩ : ListenerReg) ∈ (Registry.addEventListener t (some lv) cap r).listeners := by
  by_cases hmem : (⟨t, lv, cap⟩ : ListenerReg) ∈ r.listeners
  · simp only [Registry.addEventListener, if_pos hmem]
    exact hmem
  · simp only [Registry.addEventListener, if_neg hmem]
    exact List.mem_append_right _ (by simp)

lemma findPred_true_iff (t : String) (lv : Nat) (o : Option ELOptions) (c : StoredCall) :
    (c.type == t && (some c.listener == some lv) &&
        (c.options.capture == (normalizeEventListenerOptions o).capture)) = true
      ↔ c.type = t ∧ c.listener = lv ∧
          c.options.capture = (normalizeEventListenerOptions o).capture := by
  simp [and_assoc]

lemma reg_ne_of_pred_false (t : String) (lv : Nat) (o : Option ELOptions)
    (ho : normalizeEventListenerOptions o = ⟨some (jsCaptureOf o)⟩)
    (c : StoredCall) (b : Bool) (hb : c.options.capture = some b)
    (hpc : (c.type == t && (some c.listener == some lv) &&
      (c.options.capture == (normalizeEventListenerOptions o).capture)) = false) :
    (!(decide ((⟨c.type, c.listener, b⟩ : ListenerReg) = ⟨t, lv, jsCaptureOf o⟩))) = true := by
  rw [Bool.not_eq_true', decide_eq_false_iff_not]
  intro heq
  simp only [ListenerReg.mk.injEq] at heq
  have hptrue : (c.type == t && (some c.listener == some lv) &&
      (c.options.capture == (normalizeEventListenerOptions o).capture)) = true := by
    simp [heq.1, heq.2.1, hb, heq.2.2, ho]
  rw [hptrue] at hpc
  simp at hpc

lemma goodInv_add (a : ScopedPerformance) (r : Registry) (t : String) (lv : Nat)
    (o : Option ELOptions)
    (ho : normalizeEventListenerOptions o = ⟨some (jsCaptureOf o)⟩)
    (h1 : ∀ c ∈ a._addEventListenerCalls, ∃ b, c.options.capture = some b ∧
      (⟨c.type, c.listener, b⟩ : ListenerReg) ∈ r.listeners)
    (h2 : a._addEventListenerCalls.Pairwise (fun c1 c2 =>
      ¬(c1.type = c2.type ∧ c1.listener = c2.listener ∧
        c1.options.capture = c2.options.capture))) :
    (∀ c ∈ (a.addEventListener t (some lv) o r).1._addEventListenerCalls, ∃ b,
        c.options.capture = some b ∧
        (⟨c.type, c.listener, b⟩ : ListenerReg)
          ∈ (a.addEventListener t (some lv) o r).2.listeners) ∧
    (a.addEventListener t (some lv) o r).1._addEventListenerCalls.Pairwise (fun c1 c2 =>
      ¬(c1.type = c2.type ∧ c1.listener = c2.listener ∧
        c1.options.capture = c2.options.capture)) := by
  have hreg : (a.addEventListener t (some lv) o r).2
      = Registry.addEventListener t (some lv) (jsCaptureOf o) r := rfl
  cases hf : a._findListenerIndex t (some lv) o with
  | some i =>
    have hcalls : (a.addEventListener t (some lv) o r).1 = a := by
      simp [ScopedPerformance.addEventListener, hf]
    rw [hcalls, hreg]
    constructor
    · intro c hc
      obtain ⟨b, hb, hm⟩ := h1 c hc
      exact ⟨b, hb, addEventListener_mem_mono _ _ _ _ _ hm⟩
    · exact h2
  | none =>
    have hcalls : (a.addEventListener t (some lv) o r).1._addEventListenerCalls
        = a._addEventListenerCalls ++ [⟨t, lv, normalizeEventListenerOptions o⟩] := by
      simp [ScopedPerformance.addEventListener, hf]
    rw [hcalls, hreg]
    constructor
    · intro c hc
      rcases List.mem_append.mp hc with hc' | hc'
      · obtain ⟨b, hb, hm⟩ := h1 c hc'
        exact ⟨b, hb, addEventListener_mem_mono _ _ _ _ _ hm⟩
      · have hceq : c = ⟨t, lv, normalizeEventListenerOptions o⟩ := by simpa using hc'
        refine ⟨jsCaptureOf o, ?_, ?_⟩
        · rw [hceq, ho]
        · rw [hceq, ho]
          exact addEventListener_self_mem t lv (jsCaptureOf o) r
    · apply List.pairwise_append.mpr
      refine ⟨h2, List.pairwise_singleton _ _, ?_⟩
      intro c hc x hx
      have hx' : x = ⟨t, lv, normalizeEventListenerOptions o⟩ := by simpa using hx
      rw [hx']
      intro hcon
      have hpred := findFirstIdx_none_all _ _ hf c hc
      have hptrue : (c.type == t && (some c.listener == some lv) &&
          (c.options.capture == (normalizeEventListenerOptions o).capture)) = true :=
        (findPred_true_iff t lv o c).mpr ⟨hcon.1, hcon.2.1, hcon.2.2⟩
      rw [hptrue] at hpred
      simp at hpred

lemma goodInv_remove (a : ScopedPerformance) (r : Registry) (t : String) (lv : Nat)
    (o : Option ELOptions)
    (ho : normalizeEventListenerOptions o = ⟨some (jsCaptureOf o)⟩)
    (h1 : ∀ c ∈ a._addEventListenerCalls, ∃ b, c.options.capture = some b ∧
      (⟨c.type, c.listener, b⟩ : ListenerReg) ∈ r.listeners)
    (h2 : a._addEventListenerCalls.Pairwise (fun c1 c2 =>
      ¬(c1.type = c2.type ∧ c1.listener = c2.listener ∧
        c1.options.capture = c2.options.capture))) :
    (∀ c ∈ (a.removeEventListener t (some lv) o r).1._addEventListenerCalls, ∃ b,
        c.options.capture = some b ∧
        (⟨c.type, c.listener, b⟩ : ListenerReg)
          ∈ (a.removeEventListener t (some lv) o r).2.listeners) ∧
    (a.removeEventListener t (some lv) o r).1._addEventListenerCalls.Pairwise (fun c1 c2 =>
      ¬(c1.type = c2.type ∧ c1.listener = c2.listener ∧
        c1.options.capture = c2.options.capture)) := by
  have hreg : (a.removeEventListener t (some lv) o r).2
      = Registry.removeEventListener t (some lv) (jsCaptureOf o) r := rfl
  cases hf : a._findListenerIndex t (some lv) o with
  | none =>
    have hcalls : (a.removeEventListener t (some lv) o r).1 = a := by
      simp [ScopedPerformance.removeEventListener, hf]
    rw [hcalls, hreg]
    constructor
    · intro c hc
      obtain ⟨b, hb, hm⟩ := h1 c hc
      refine ⟨b, hb, ?_⟩
      simp only [Registry.removeEventListener]
      exact List.mem_filter.mpr
        ⟨hm, reg_ne_of_pred_false t lv o ho c b hb (findFirstIdx_none_all _ _ hf c hc)⟩
    · exact h2
  | some i =>
    have hcalls : (a.removeEventListener t (some lv) o r).1._addEventListenerCalls
        = a._addEventListenerCalls.eraseIdx i := by
      simp [ScopedPerformance.removeEventListener, hf]
    rw [hcalls, hreg]
    have hpw' : a._addEventListenerCalls.Pairwise (fun x y =>
        ¬((x.type == t && (some x.listener == some lv) &&
            (x.options.capture == (normalizeEventListenerOptions o).capture)) = true ∧
          (y.type == t && (some y.listener == some lv) &&
            (y.options.capture == (normalizeEventListenerOptions o).capture)) = true)) := by
      refine h2.imp ?_
      intro x y hxy hcond
      have hx := (findPred_true_iff t lv o x).mp hcond.1
      have hy := (findPred_true_iff t lv o y).mp hcond.2
      exact hxy ⟨hx.1.trans hy.1.symm, hx.2.1.trans hy.2.1.symm, hx.2.2.trans hy.2.2.symm⟩
    constructor
    · intro c hc
      have hc0 : c ∈ a._addEventListenerCalls := List.mem_of_mem_eraseIdx hc
      obtain ⟨b, hb, hm⟩ := h1 c hc0
      refine ⟨b, hb, ?_⟩
      simp only [Registry.removeEventListener]
      exact List.mem_filter.mpr
        ⟨hm, reg_ne_of_pred_false t lv o ho c b hb
          (findFirstIdx_eraseIdx_all _ _ i hf hpw' c hc)⟩
    · exact h2.sublist (List.eraseIdx_sublist ..)

lemma goodInv_run : ∀ (ops : List Op) (a : ScopedPerformance) (r : Registry),
    (∀ op ∈ ops, simpleOp op = true) →
    (∀ c ∈ a._addEventListenerCalls, ∃ b, c.options.capture = some b ∧
      (⟨c.type, c.listener, b⟩ : ListenerReg) ∈ r.listeners) →
    a._addEventListenerCalls.Pairwise (fun c1 c2 =>
      ¬(c1.type = c2.type ∧ c1.listener = c2.listener ∧
        c1.options.capture = c2.options.capture)) →
    ∀ c ∈ (runOps a r ops).1._addEventListenerCalls, ∃ b, c.options.capture = some b ∧
      (⟨c.type, c.listener, b⟩ : ListenerReg) ∈ (runOps a r ops).2.listeners := by
  intro ops
  induction ops with
  | nil => intro a r _ h1 _; exact h1
  | cons op ops ih =>
    intro a r hops h1 h2
    have hsimple := hops op (List.mem_cons_self _ _)
    have hrest : ∀ x ∈ ops, simpleOp x = true := fun x hx => hops x (List.mem_cons_of_mem _ hx)
    cases op with
    | dispose => simp [simpleOp] at hsimple
    | add t l o =>
      cases l with
      | none => simp [simpleOp] at hsimple
      | some lv =>
        have ho : normalizeEventListenerOptions o = ⟨some (jsCaptureOf o)⟩ := by
          cases o with
          | none => rfl
          | some el =>
            cases el with
            | bool b => rfl
            | obj c => simp [simpleOp] at hsimple
        have hstep := goodInv_add a r t lv o ho h1 h2
        exact ih _ _ hrest hstep.1 hstep.2
    | remove t l o =>
      cases l with
      | none => simp [simpleOp] at hsimple
      | some lv =>
        have ho : normalizeEventListenerOptions o = ⟨some (jsCaptureOf o)⟩ := by
          cases o with
          | none => rfl
          | some el =>
            cases el with
            | bool b => rfl
            | obj c => simp [simpleOp] at hsimple
        have hstep := goodInv_remove a r t lv o ho h1 h2
        exact ih _ _ hrest hstep.1 hstep.2

/-! ## Claim theorems -/

/-- C1, counterexample: with scope identifiers `"a"` and `"a::b"` (distinct),
the mark created through the adapter scoped to `"a"` under logical name
`"b::m"` does appear in `getEntries()` of the adapter scoped to `"a::b"`
(as an entry named `"m"`), so prefix disjointness fails for arbitrary
distinct identifiers. -/
theorem C1_counterexample :
    (⟨['a'], []⟩ : ScopedPerformance).randomId
        ≠ (⟨['a', ':', ':', 'b'], []⟩ : ScopedPerformance).randomId ∧
    (⟨['a', ':', ':', 'b'], []⟩ : ScopedPerformance).getEntries
        ((⟨['a'], []⟩ : ScopedPerformance).mark ['b', ':', ':', 'm'] 0 "" ⟨[], []⟩)
      = some [⟨['m'], "mark", 0, 0, "", Proto.mark⟩] := by
  constructor
  · decide
  · decide

/-- C1, amended: for scope identifiers that do not contain the separator
character `':'` (which holds for the default UUID generator), a mark created
through one adapter never appears in `getEntries()` of a differently-scoped
adapter: marking through `a1` leaves `a2`'s view unchanged (and vice versa,
by symmetry of the statement in the two adapters). -/
theorem C1_mark_invisible_across_scopes (a1 a2 : ScopedPerformance) (n : Str) (st : Int)
    (d : String) (r : Registry) (h1 : ':' ∉ a1.randomId) (h2 : ':' ∉ a2.randomId)
    (hne : a1.randomId ≠ a2.randomId) :
    a2.getEntries (a1.mark n st d r) = a2.getEntries r := by
  have hf : a2._isScopedName (a1._prefixName n) = false := isScopedName_cross a1 a2 n h1 h2 hne
  simp [ScopedPerformance.getEntries, ScopedPerformance.mark, Registry.mark,
    Registry.getEntries, ScopedPerformance._filterMap, List.filter_append, hf]

/-- C1, witness for the amended theorem at concrete scopes `"a"` and `"b"`. -/
theorem C1_mark_invisible_across_scopes_witness :
    (':' ∉ (['a'] : Str)) ∧ (':' ∉ (['b'] : Str)) ∧ (['a'] : Str) ≠ ['b'] ∧
    (⟨['b'], []⟩ : ScopedPerformance).getEntries
        ((⟨['a'], []⟩ : ScopedPerformance).mark ['m'] 0 "" ⟨[], []⟩)
      = (⟨['b'], []⟩ : ScopedPerformance).getEntries ⟨[], []⟩ :=
  ⟨by decide, by decide, by decide,
    C1_mark_invisible_across_scopes ⟨['a'], []⟩ ⟨['b'], []⟩ ['m'] 0 "" ⟨[], []⟩
      (by decide) (by decide) (by decide)⟩

/-- C2: when every scoped entry is a mark or a measure (see C10 for the
failure mode otherwise), `getEntries()` and `getEntriesByType(kind)` return
exactly the registry entries carrying this adapter's scope prefix, each
rebuilt with the prefix stripped from its name, every other field preserved,
and the kind-specific prototype (mark vs measure) matching its entry type;
the registry itself is not touched (the getters are pure functions of it). -/
theorem C2_getEntries_scoped_projection (a : ScopedPerformance) (t : String) (r : Registry)
    (h : ∀ e ∈ r.entries, a._isScopedName e.name = true →
      e.entryType = "mark" ∨ e.entryType = "measure") :
    a.getEntries r
      = some (((Registry.getEntries r).filter (fun e => a._isScopedName e.name)).map (fun e =>
          { e with name := a._unprefixName e.name,
                   proto := if e.entryType = "mark" then Proto.mark else Proto.measure })) ∧
    a.getEntriesByType t r
      = some (((Registry.getEntriesByType t r).filter (fun e => a._isScopedName e.name)).map (fun e =>
          { e with name := a._unprefixName e.name,
                   proto := if e.entryType = "mark" then Proto.mark else Proto.measure })) := by
  constructor
  · exact filterMap_eq_some a r.entries h
  · exact filterMap_eq_some a (Registry.getEntriesByType t r)
      (fun e he => h e (List.mem_filter.mp he).1)

/-- C2, witness: a registry holding one scoped mark, one foreign-scoped mark
and one unscoped mark projects to exactly the one scoped entry, renamed. -/
theorem C2_getEntries_scoped_projection_witness :
    (∀ e ∈ (⟨[⟨['s', ':', ':', 'a'], "mark", 1, 0, "", Proto.mark⟩,
        ⟨['t', ':', ':', 'a'], "mark", 2, 0, "", Proto.mark⟩,
        ⟨['a'], "mark", 3, 0, "", Proto.mark⟩], []⟩ : Registry).entries,
      (⟨['s'], []⟩ : ScopedPerformance)._isScopedName e.name = true →
        e.entryType = "mark" ∨ e.entryType = "measure") ∧
    (⟨['s'], []⟩ : ScopedPerformance).getEntries
        ⟨[⟨['s', ':', ':', 'a'], "mark", 1, 0, "", Proto.mark⟩,
          ⟨['t', ':', ':', 'a'], "mark", 2, 0, "", Proto.mark⟩,
          ⟨['a'], "mark", 3, 0, "", Proto.mark⟩], []⟩
      = some [⟨['a'], "mark", 1, 0, "", Proto.mark⟩] := by
  refine ⟨by decide, ?_⟩
  have h := (C2_getEntries_scoped_projection ⟨['s'], []⟩ "mark"
    ⟨[⟨['s', ':', ':', 'a'], "mark", 1, 0, "", Proto.mark⟩,
      ⟨['t', ':', ':', 'a'], "mark", 2, 0, "", Proto.mark⟩,
      ⟨['a'], "mark", 3, 0, "", Proto.mark⟩], []⟩ (by decide)).1
  rw [h]
  decide

/-- C3, counterexample: `clearMarks('')` supplies a logical name, but the
source tests JS truthiness, so the empty-string name takes the bulk branch
and deletes every scoped mark instead of forwarding the single-entry
deletion of `"s::"`; on a registry holding the scoped mark `"s::a"` the two
behaviours differ. -/
theorem C3_counterexample :
    (⟨['s'], []⟩ : ScopedPerformance).clearMarks (some [])
        ⟨[⟨['s', ':', ':', 'a'], "mark", 0, 0, "", Proto.mark⟩], []⟩
      ≠ Registry.clearMarks (some ((⟨['s'], []⟩ : ScopedPerformance)._prefixName []))
        ⟨[⟨['s', ':', ':', 'a'], "mark", 0, 0, "", Proto.mark⟩], []⟩ := by
  decide

/-- C3, amended: with a non-empty logical name, `clearMarks`/`clearMeasures`
forward exactly one deletion of the scoped form of that name (an
empty-string name is treated as absent per JS truthiness); with no name,
exactly this scope's entries of the respective kind are removed, each by its
full scoped name; entries of other scopes or of the unscoped namespace, and
all listeners, are untouched. -/
theorem C3_clear_removes_exactly_scoped (a : ScopedPerformance) (r : Registry) :
    (∀ c cs, (a.clearMarks (some (c :: cs)) r).entries
        = r.entries.filter (fun e =>
            !(e.entryType == "mark" && e.name == a._prefixName (c :: cs)))) ∧
    (a.clearMarks none r).entries
        = r.entries.filter (fun e => !(e.entryType == "mark" && a._isScopedName e.name)) ∧
    (∀ c cs, (a.clearMeasures (some (c :: cs)) r).entries
        = r.entries.filter (fun e =>
            !(e.entryType == "measure" && e.name == a._prefixName (c :: cs)))) ∧
    (a.clearMeasures none r).entries
        = r.entries.filter (fun e => !(e.entryType == "measure" && a._isScopedName e.name)) ∧
    (a.clearMarks none r).listeners = r.listeners ∧
    (a.clearMeasures none r).listeners = r.listeners := by
  refine ⟨?_, clearMarks_none_entries a r, ?_, clearMeasures_none_entries a r,
    clearMarks_none_listeners a r, clearMeasures_none_listeners a r⟩
  · intro c cs
    simp [ScopedPerformance.clearMarks, Registry.clearMarks, Registry.clearType]
  · intro c cs
    simp [ScopedPerformance.clearMeasures, Registry.clearMeasures, Registry.clearType]

/-- C4: teardown deletes this scope's marks, then this scope's measures,
then forwards one unsubscription per recorded listener registration: the
resulting registry keeps exactly the entries that are not scoped marks or
scoped measures of this adapter, and exactly the listener registrations not
matching any recorded call — everything created by other adapters is
untouched. -/
theorem C4_dispose_restores_registry (a : ScopedPerformance) (r : Registry) :
    (a.dispose r).entries = r.entries.filter (fun e =>
        !((e.entryType == "mark" || e.entryType == "measure") && a._isScopedName e.name)) ∧
    (a.dispose r).listeners = r.listeners.filter (fun reg =>
        a._addEventListenerCalls.all (fun c =>
          !(decide (reg = ⟨c.type, c.listener, c.options.capture.getD false⟩)))) :=
  ⟨dispose_entries a r, dispose_listeners a r⟩

/-- C5: for any adapter and any logical name not containing the separator
sequence `"::"`, unprefixing the prefixed form recovers the name exactly. -/
theorem C5_roundtrip (a : ScopedPerformance) (n : Str) (_h : ¬ (glue <:+: n)) :
    a._unprefixName (a._prefixName n) = n :=
  unprefixName_prefixName a n

/-- C5, witness at the concrete name `"x"` and scope `"s"`. -/
theorem C5_roundtrip_witness :
    (¬ (glue <:+: (['x'] : Str))) ∧
    (⟨['s'], []⟩ : ScopedPerformance)._unprefixName
        ((⟨['s'], []⟩ : ScopedPerformance)._prefixName ['x']) = ['x'] :=
  ⟨by decide, C5_roundtrip ⟨['s'], []⟩ ['x'] (by decide)⟩

/-- C6, counterexample: on a registry holding the scoped mark `"s::a"`, the
adapter's `getEntriesByName("a")` does not return the registry's result for
the scoped name as-is — the current source pipes it through `_filterMap`, so
the returned entry is renamed to the logical `"a"` while the registry's own
result carries `"s::a"`. -/
theorem C6_counterexample :
    (⟨['s'], []⟩ : ScopedPerformance).getEntriesByName ['a'] none
        ⟨[⟨['s', ':', ':', 'a'], "mark", 0, 0, "", Proto.mark⟩], []⟩
      ≠ some (Registry.getEntriesByName
          ((⟨['s'], []⟩ : ScopedPerformance)._prefixName ['a']) none
          ⟨[⟨['s', ':', ':', 'a'], "mark", 0, 0, "", Proto.mark⟩], []⟩) := by
  decide

/-- C6, amended: `getEntriesByName(name, kind?)` queries the registry with
the scoped form of `name` and applies the same filter-and-strip
transformation as the other getters, so (when the matching entries are marks
or measures) every returned entry carries the logical name `name`, not the
scoped one — the asymmetry described by the claim is absent from the current
source. -/
theorem C6_getEntriesByName_strips_scope (a : ScopedPerformance) (n : Str)
    (t : Option String) (r : Registry)
    (h : ∀ e ∈ r.entries, e.name = a._prefixName n → typeMatches t e = true →
      e.entryType = "mark" ∨ e.entryType = "measure") :
    a.getEntriesByName n t r
      = some ((r.entries.filter (fun e =>
            e.name == a._prefixName n && typeMatches t e)).map (fun e =>
          { e with name := n,
                   proto := if e.entryType = "mark" then Proto.mark else Proto.measure })) := by
  rw [ScopedPerformance.getEntriesByName, ScopedPerformance._filterMap]
  have hfil : (Registry.getEntriesByName (a._prefixName n) t r).filter
        (fun e => a._isScopedName e.name)
      = r.entries.filter (fun e => e.name == a._prefixName n && typeMatches t e) := by
    rw [Registry.getEntriesByName, List.filter_filter]
    apply List.filter_congr
    intro e _
    cases hn : (e.name == a._prefixName n) with
    | false => simp [hn]
    | true =>
      have hname : e.name = a._prefixName n := beq_iff_eq.mp hn
      simp [hn, hname, isScopedName_prefixName_self]
  rw [hfil]
  apply throwingMap_eq_some_map
  intro e he
  obtain ⟨hel, hcond⟩ := List.mem_filter.mp he
  obtain ⟨hn, htm⟩ := Bool.and_eq_true_iff.mp hcond
  have hname : e.name = a._prefixName n := beq_iff_eq.mp hn
  rcases h e hel hname htm with hm | hm <;>
    simp [_prototypeMap, hm, hname, unprefixName_prefixName]

/-- C6, witness: the amended theorem evaluated on the one-entry registry. -/
theorem C6_getEntriesByName_strips_scope_witness :
    (∀ e ∈ (⟨[⟨['s', ':', ':', 'a'], "mark", 0, 0, "", Proto.mark⟩], []⟩ : Registry).entries,
      e.name = (⟨['s'], []⟩ : ScopedPerformance)._prefixName ['a'] →
        typeMatches none e = true → e.entryType = "mark" ∨ e.entryType = "measure") ∧
    (⟨['s'], []⟩ : ScopedPerformance).getEntriesByName ['a'] none
        ⟨[⟨['s', ':', ':', 'a'], "mark", 0, 0, "", Proto.mark⟩], []⟩
      = some [⟨['a'], "mark", 0, 0, "", Proto.mark⟩] := by
  refine ⟨by decide, ?_⟩
  have h := C6_getEntriesByName_strips_scope ⟨['s'], []⟩ ['a'] none
    ⟨[⟨['s', ':', ':', 'a'], "mark", 0, 0, "", Proto.mark⟩], []⟩ (by decide)
  rw [h]
  decide

/-- C7, counterexample: an empty-string end reference is present but falsy
in JS, so `measure` forwards `undefined` instead of its scoped form. -/
theorem C7_counterexample :
    ((⟨['s'], []⟩ : ScopedPerformance).measureArgs ['m'] none (some [])).2.2
      ≠ some ((⟨['s'], []⟩ : ScopedPerformance)._prefixName []) := by
  decide

/-- C7, amended: `measure(name, startRef?, endRef?)` always rewrites `name`
to its scoped form; rewrites `startRef` exactly when it is a string, passing
an options object through unchanged; rewrites `endRef` to its scoped form
whenever it is present and non-empty, while an empty-string `endRef` is
forwarded as absent (JS truthiness); and the registry's result is returned
unmodified. -/
theorem C7_measure_argument_rewrites (a : ScopedPerformance) (name : Str)
    (s : Option StartRef) (e : Option Str) (r : Registry) (now : Int) :
    (a.measureArgs name s e).1 = a._prefixName name ∧
    (∀ str, (a.measureArgs name (some (StartRef.name str)) e).2.1
        = some (StartRef.name (a._prefixName str))) ∧
    (∀ o, (a.measureArgs name (some (StartRef.options o)) e).2.1
        = some (StartRef.options o)) ∧
    ((a.measureArgs name none e).2.1 = none) ∧
    ((a.measureArgs name s none).2.2 = none) ∧
    (∀ c cs, (a.measureArgs name s (some (c :: cs))).2.2
        = some (a._prefixName (c :: cs))) ∧
    ((a.measureArgs name s (some [])).2.2 = none) ∧
    (a.measure r now name s e
        = Registry.measure r now (a.measureArgs name s e).1
            (a.measureArgs name s e).2.1 (a.measureArgs name s e).2.2) :=
  ⟨rfl, fun _ => rfl, fun _ => rfl, rfl, rfl, fun _ _ => rfl, rfl, rfl⟩

/-- C8, counterexample: registering with boolean-`false` options and then
with an empty options object denotes the same canonical
(type, listener, capture=false) registration — the registry de-duplicates
the second call — yet the bookkeeping records both, because
`normalizeEventListenerOptions` passes the object through with its `capture`
member absent and the duplicate check compares captures with strict
equality. -/
theorem C8_counterexample :
    jsCaptureOf (some (ELOptions.bool false)) = jsCaptureOf (some (ELOptions.obj none)) ∧
    ((((⟨['s'], []⟩ : ScopedPerformance).addEventListener "mark" (some 5)
          (some (ELOptions.bool false)) ⟨[], []⟩).1.addEventListener "mark" (some 5)
          (some (ELOptions.obj none))
          (((⟨['s'], []⟩ : ScopedPerformance).addEventListener "mark" (some 5)
            (some (ELOptions.bool false)) ⟨[], []⟩).2)).1)._addEventListenerCalls.length = 2 ∧
    ((((⟨['s'], []⟩ : ScopedPerformance).addEventListener "mark" (some 5)
          (some (ELOptions.bool false)) ⟨[], []⟩).1.addEventListener "mark" (some 5)
          (some (ELOptions.obj none))
          (((⟨['s'], []⟩ : ScopedPerformance).addEventListener "mark" (some 5)
            (some (ELOptions.bool false)) ⟨[], []⟩).2)).2).listeners.length = 1 := by
  refine ⟨by decide, by decide, by decide⟩

/-- C8, amended: `addEventListener` always forwards the original arguments
to the registry; a null listener is never recorded; a non-null listener is
recorded with `normalizeEventListenerOptions` applied (canonical
`\x7b capture: boolean \x7d` for boolean or absent options, the object
passed through otherwise) exactly when no recorded call has the same type,
listener, and strictly-equal normalized capture value. -/
theorem C8_addEventListener_recording (a : ScopedPerformance) (t : String) (lv : Nat)
    (o : Option ELOptions) (r : Registry) :
    (∀ l, (a.addEventListener t l o r).2 = Registry.addEventListener t l (jsCaptureOf o) r) ∧
    ((a.addEventListener t none o r).1 = a) ∧
    (a._findListenerIndex t (some lv) o = none →
      (a.addEventListener t (some lv) o r).1._addEventListenerCalls
        = a._addEventListenerCalls ++ [⟨t, lv, normalizeEventListenerOptions o⟩]) ∧
    ((a._findListenerIndex t (some lv) o).isSome = true →
      (a.addEventListener t (some lv) o r).1 = a) ∧
    (a._findListenerIndex t (some lv) o = none ↔
      ∀ c ∈ a._addEventListenerCalls,
        ¬(c.type = t ∧ c.listener = lv ∧
          c.options.capture = (normalizeEventListenerOptions o).capture)) := by
  refine ⟨fun l => rfl, rfl, ?_, ?_, ?_⟩
  · intro h
    simp [ScopedPerformance.addEventListener, h]
  · intro h
    cases hf : a._findListenerIndex t (some lv) o with
    | none => rw [hf] at h; simp at h
    | some i => simp [ScopedPerformance.addEventListener, hf]
  · constructor
    · intro h c hc hcon
      have hpred := findFirstIdx_none_all _ _ h c hc
      have hptrue := (findPred_true_iff t lv o c).mpr hcon
      rw [hptrue] at hpred
      simp at hpred
    · intro h
      cases hf : a._findListenerIndex t (some lv) o with
      | none => rfl
      | some i =>
        obtain ⟨c, hc, hpc⟩ := findFirstIdx_some_mem _ _ i hf
        exact absurd ((findPred_true_iff t lv o c).mp hpc) (h c hc)

/-- C8, witness: on a fresh adapter the duplicate check finds nothing and
the call is recorded with canonical capture `false`. -/
theorem C8_addEventListener_recording_witness :
    (⟨['s'], []⟩ : ScopedPerformance)._findListenerIndex "mark" (some 1) none = none ∧
    ((⟨['s'], []⟩ : ScopedPerformance).addEventListener "mark" (some 1) none
        ⟨[], []⟩).1._addEventListenerCalls = [⟨"mark", 1, ⟨some false⟩⟩] := by
  refine ⟨by decide, ?_⟩
  have h := (C8_addEventListener_recording ⟨['s'], []⟩ "mark" 1 none ⟨[], []⟩).2.2.1 (by decide)
  rw [h]
  decide

/-- C9, counterexample: teardown forwards unsubscriptions but never empties
the bookkeeping list, so after `addEventListener` followed by the
`Symbol.dispose` teardown the recorded call is a phantom: it is absent from
the registry's listener list. -/
theorem C9_counterexample :
    bookkeepingSubset
        (runOps ⟨['s'], []⟩ ⟨[], []⟩ [Op.add "mark" (some 1) none, Op.dispose]).1
        (runOps ⟨['s'], []⟩ ⟨[], []⟩ [Op.add "mark" (some 1) none, Op.dispose]).2
      = false := by
  decide

/-- C9, amended: along any sequence of adapter-mediated `addEventListener`
and `removeEventListener` operations with non-null listeners and
boolean-or-absent options (no teardown, whose unsubscribe loop does not
empty the bookkeeping, and no object options, whose capture is not
canonicalized), the bookkeeping list stays a subset of the listener
registrations actually present on the shared registry. -/
theorem C9_bookkeeping_subset (id : Str) (r0 : Registry) (ops : List Op)
    (h : ∀ op ∈ ops, simpleOp op = true) :
    bookkeepingSubset (runOps ⟨id, []⟩ r0 ops).1 (runOps ⟨id, []⟩ r0 ops).2 = true := by
  have hg := goodInv_run ops ⟨id, []⟩ r0 h (by intro c hc; simp at hc) List.Pairwise.nil
  rw [bookkeepingSubset, List.all_eq_true]
  intro c hc
  obtain ⟨b, hcap, hmem⟩ := hg c hc
  rw [decide_eq_true_eq]
  have : c.options.capture.getD false = b := by rw [hcap]; rfl
  rw [this]
  exact hmem

/-- C9, witness: the invariant holds after one boolean-options subscribe
and one unsubscribe on a fresh adapter. -/
theorem C9_bookkeeping_subset_witness :
    (∀ op ∈ [Op.add "mark" (some 1) (some (ELOptions.bool true)),
        Op.remove "mark" (some 1) (some (ELOptions.bool true))], simpleOp op = true) ∧
    bookkeepingSubset
        (runOps ⟨['s'], []⟩ ⟨[], []⟩ [Op.add "mark" (some 1) (some (ELOptions.bool true)),
          Op.remove "mark" (some 1) (some (ELOptions.bool true))]).1
        (runOps ⟨['s'], []⟩ ⟨[], []⟩ [Op.add "mark" (some 1) (some (ELOptions.bool true)),
          Op.remove "mark" (some 1) (some (ELOptions.bool true))]).2 = true :=
  ⟨by decide, C9_bookkeeping_subset ['s'] ⟨[], []⟩
    [Op.add "mark" (some 1) (some (ELOptions.bool true)),
      Op.remove "mark" (some 1) (some (ELOptions.bool true))] (by decide)⟩

/-- C10: the three getters succeed exactly when every registry entry they
would transform (scoped entries for `getEntries`; scoped entries of the
requested kind for `getEntriesByType`; entries bearing the scoped name and
matching the optional kind for `getEntriesByName`) has entry type `mark` or
`measure`; any other scoped entry type makes the prototype lookup yield
`undefined` and `Object.setPrototypeOf` throw. -/
theorem C10_getters_totality (a : ScopedPerformance) (r : Registry) (t : String)
    (n : Str) (ty : Option String) :
    ((a.getEntries r).isSome = true ↔
      ∀ e ∈ r.entries, a._isScopedName e.name = true →
        (e.entryType = "mark" ∨ e.entryType = "measure")) ∧
    ((a.getEntriesByType t r).isSome = true ↔
      ∀ e ∈ r.entries, e.entryType = t → a._isScopedName e.name = true →
        (e.entryType = "mark" ∨ e.entryType = "measure")) ∧
    ((a.getEntriesByName n ty r).isSome = true ↔
      ∀ e ∈ r.entries, e.name = a._prefixName n → typeMatches ty e = true →
        (e.entryType = "mark" ∨ e.entryType = "measure")) := by
  refine ⟨?_, ?_, ?_⟩
  · exact filterMap_isSome_iff a r.entries
  · rw [ScopedPerformance.getEntriesByType, filterMap_isSome_iff, Registry.getEntriesByType]
    constructor
    · intro h e hel hty hsc
      exact h e (List.mem_filter.mpr ⟨hel, beq_iff_eq.mpr hty⟩) hsc
    · intro h e he hsc
      obtain ⟨hel, hty⟩ := List.mem_filter.mp he
      exact h e hel (beq_iff_eq.mp hty) hsc
  · rw [ScopedPerformance.getEntriesByName, filterMap_isSome_iff, Registry.getEntriesByName]
    constructor
    · intro h e hel hname htm
      refine h e (List.mem_filter.mpr ⟨hel, ?_⟩) ?_
      · rw [Bool.and_eq_true_iff]
        exact ⟨beq_iff_eq.mpr hname, htm⟩
      · rw [hname]
        exact isScopedName_prefixName_self a n
    · intro h e he _
      obtain ⟨hel, hcond⟩ := List.mem_filter.mp he
      obtain ⟨hn, htm⟩ := Bool.and_eq_true_iff.mp hcond
      exact h e hel (beq_iff_eq.mp hn) htm
